import Mathlib

/-!
Verification of the COFFE background evolution and interpolation engine
(src/background.c, src/functions.c) against its specification.

Modelling conventions:
* C doubles are modelled as real numbers; quadrature calls are modelled by
  exact interval integrals (the "exact integral semantics" of the spec);
  spline interpolants built from caller data are modelled as arbitrary real
  functions.
* The GSL ODE machinery is modelled by an abstract per-call step function
  (the only state of the gsl evolve/step/control objects that influences the
  computed solution across calls is the adapted step size h, which the code
  threads through the bin loop by passing the same variable by address).
* Non-finite doubles, where control flow branches on them, are modelled with
  an Option: none stands for a non-finite value, some r for the finite
  value r.
-/

namespace Coffe

/-- Parameter set (struct coffe_parameters_t restricted to the fields used by
the background engine): density fractions, the dark-energy equation of state
w as a function of redshift, the four caller-supplied bias interpolants, and
the number of output bins. -/
structure Params where
  Omega0_cdm : ℝ
  Omega0_baryon : ℝ
  Omega0_gamma : ℝ
  Omega0_de : ℝ
  w : ℝ → ℝ
  magnification_bias1 : ℝ → ℝ
  magnification_bias2 : ℝ → ℝ
  evolution_bias1 : ℝ → ℝ
  evolution_bias2 : ℝ → ℝ
  background_bins : ℕ

/-- Right-hand side of the growth ODE, from growth_rate_ode
(background.c lines 80-97).  The interpolants w and xint of the
integration_params are modelled as real functions; the state y = (D1, D1
derivative) is a pair.  Source:
  z = 1./a - 1;  w = interp(w, z);  x = interp(xint, z);
  f[0] = y[1];
  f[1] = -3./2*(1 - w/(1 + x))*y[1]/a + 3./2*x/(1 + x)*y[0]/pow(a, 2). -/
noncomputable def growth_rate_ode (w xint : ℝ → ℝ) (a : ℝ) (y : ℝ × ℝ) : ℝ × ℝ :=
  let z := 1 / a - 1
  let wv := w z
  let x := xint z
  (y.2, -3 / 2 * (1 - wv / (1 + x)) * y.2 / a + 3 / 2 * x / (1 + x) * y.1 / a ^ 2)

/-- Jacobian-and-time-derivative supplied to the stepper, from growth_rate_jac
(background.c lines 104-132), transcribed term by term; xder models the
spline derivative of xint.  In particular the matrix entry (1,1) is the
source expression -3./a/2./(1. - w/(1 + x)). -/
noncomputable def growth_rate_jac (w xint xder : ℝ → ℝ) (a : ℝ) (y : ℝ × ℝ) :
    Matrix (Fin 2) (Fin 2) ℝ × (ℝ × ℝ) :=
  let z := 1 / a - 1
  let wv := w z
  let x := xint z
  let x_der := xder z
  (Matrix.of
    ![![0, 1],
      ![3 / 2 / a ^ 2 * (x / (1 + x)), -3 / a / 2 / (1 - wv / (1 + x))]],
   (0,
    3 * y.2 / a ^ 2 / 2 / (1 - wv / (1 + x))
      - 3 * y.1 / a ^ 3 * (x / (1 + x))
      - 3 * y.1 / 2 / a ^ 2 * (x * x_der / (1 + x) ^ 2)
      + 3 * y.1 / 2 / a ^ 2 * (x_der / (1 + x))))

/-- Integrand of the dark-energy evolution integral, from integrand_w
(background.c lines 139-146): (1 + w(z))/(1 + z). -/
noncomputable def integrand_w (w : ℝ → ℝ) (z : ℝ) : ℝ := (1 + w z) / (1 + z)

/-- Value tabulated for wint, from integral_w (background.c lines 163-184):
the quadrature of integrand_w from 0 to z (modelled as the exact interval
integral) followed by exp(3 * result). -/
noncomputable def integral_w (w : ℝ → ℝ) (z : ℝ) : ℝ :=
  Real.exp (3 * ∫ t in (0 : ℝ)..z, integrand_w w t)

/-- Integrand of the density-ratio integral, from integrand_x
(background.c lines 152-160): w evaluated at redshift 1/a - 1, divided
by the scale factor a. -/
noncomputable def integrand_x (w : ℝ → ℝ) (a : ℝ) : ℝ := w (1 / a - 1) / a

/-- Raw density-ratio integral, from integral_x (background.c lines 187-208):
the quadrature of integrand_x from 1/(1 + z) to 1 (modelled exactly). -/
noncomputable def integral_x (w : ℝ → ℝ) (z : ℝ) : ℝ :=
  ∫ a in (1 / (1 + z))..1, integrand_x w a

/-- Dense tabulation grid of the equation of state and the two auxiliary
integrals (background.c lines 264-303): z_i = z_max * i / bins with
z_max = 100 and bins = 16384, for i = 0..16384. -/
noncomputable def zgrid (i : ℕ) : ℝ := 100 * i / 16384

/-- Tabulated xint values on the dense grid, from background.c lines 287-298:
for i different from 0 the value Om/(1-Om) * exp(-3*integral_x(z_i)), and for
i = 0 the direct formula Om/(1-Om), with Om = Omega0_cdm + Omega0_baryon. -/
noncomputable def xint_tab (w : ℝ → ℝ) (Ocdm Obar : ℝ) (i : ℕ) : ℝ :=
  if i ≠ 0 then
    (Ocdm + Obar) / (1 - (Ocdm + Obar)) * Real.exp (-3 * integral_x w (zgrid i))
  else
    (Ocdm + Obar) / (1 - (Ocdm + Obar))

/-- Tabulated dark-energy evolution factor used by the field sampler:
wint = interp(ipar.wint, z), whose tabulated values are integral_w
(background.c lines 278-284, exact-interpolation semantics). -/
noncomputable def wint (p : Params) (z : ℝ) : ℝ := integral_w p.w z

/-- Output-bin redshift, from background.c line 337:
z = 15.*i/(double)(par->background_bins - 1). -/
noncomputable def zbinN (N i : ℕ) : ℝ := 15 * i / ((N - 1 : ℕ) : ℝ)

/-- Output-bin redshift for a parameter set. -/
noncomputable def zbin (p : Params) (i : ℕ) : ℝ := zbinN p.background_bins i

/-- Per-bin scale factor, background.c line 343: a = 1/(1 + z). -/
noncomputable def a_bin (p : Params) (i : ℕ) : ℝ := 1 / (1 + zbin p i)

/-- The quantity under the square root of the Hubble rate (and under the
comoving-distance integrand), background.c lines 344-347 and 221-225:
(Ocdm + Obar)(1+z)^3 + Ogamma (1+z)^4 + Ode * wint(z). -/
noncomputable def Esq (p : Params) (z : ℝ) : ℝ :=
  (p.Omega0_cdm + p.Omega0_baryon) * (1 + z) ^ 3
    + p.Omega0_gamma * (1 + z) ^ 4
    + p.Omega0_de * wint p z

/-- Per-bin Hubble rate in units of H0, background.c lines 344-347. -/
noncomputable def Hz_bin (p : Params) (i : ℕ) : ℝ := Real.sqrt (Esq p (zbin p i))

/-- Per-bin conformal Hubble rate, background.c line 348: a * H. -/
noncomputable def conformal_Hz_bin (p : Params) (i : ℕ) : ℝ :=
  a_bin p i * Hz_bin p i

/-- Per-bin conformal-Hubble derivative, background.c lines 349-352. -/
noncomputable def conformal_Hz_prime_bin (p : Params) (i : ℕ) : ℝ :=
  -(((1 + zbin p i) ^ 3
      * (2 * (1 + zbin p i) * p.Omega0_gamma + (p.Omega0_cdm + p.Omega0_baryon))
    + (1 + 3 * p.w (zbin p i)) * p.Omega0_de * wint p (zbin p i))
    / (1 + zbin p i) ^ 2 / 2)

/-- Integrand of the comoving distance, from integrand_comoving
(background.c lines 215-227): 1/sqrt(Esq(z)). -/
noncomputable def integrand_comoving (p : Params) (z : ℝ) : ℝ :=
  1 / Real.sqrt (Esq p z)

/-- Per-bin comoving distance, background.c lines 366-373: the quadrature of
integrand_comoving from 0 to the bin redshift (modelled exactly). -/
noncomputable def comoving_bin (p : Params) (i : ℕ) : ℝ :=
  ∫ t in (0 : ℝ)..zbin p i, integrand_comoving p t

/-- Per-bin first relativistic correction term, background.c lines 374-406:
for z > 1e-10 the full expression involving the division by chi * curlyH,
otherwise exactly 0. -/
noncomputable def G1_bin (p : Params) (i : ℕ) : ℝ :=
  if 1e-10 < zbin p i then
    conformal_Hz_prime_bin p i / conformal_Hz_bin p i ^ 2
      + (2 - 5 * p.magnification_bias1 (zbin p i))
        / (comoving_bin p i * conformal_Hz_bin p i)
      + 5 * p.magnification_bias1 (zbin p i)
      - p.evolution_bias1 (zbin p i)
  else 0

/-- Per-bin second relativistic correction term, background.c lines 389-406. -/
noncomputable def G2_bin (p : Params) (i : ℕ) : ℝ :=
  if 1e-10 < zbin p i then
    conformal_Hz_prime_bin p i / conformal_Hz_bin p i ^ 2
      + (2 - 5 * p.magnification_bias2 (zbin p i))
        / (comoving_bin p i * conformal_Hz_bin p i)
      + 5 * p.magnification_bias2 (zbin p i)
      - p.evolution_bias2 (zbin p i)
  else 0

/-- Step-size control object of the standard GSL control type.  The GSL
constructor gsl_odeiv_control_y_new takes the absolute error bound as its
first argument and the relative error bound as its second, and the control
keeps the local error within eps_abs + eps_rel * |y_i|. -/
structure StandardControl where
  eps_abs : ℝ
  eps_rel : ℝ

/-- The GSL constructor: first positional argument is the absolute
tolerance, second is the relative tolerance. -/
def gsl_odeiv_control_y_new (eps_abs eps_rel : ℝ) : StandardControl :=
  ⟨eps_abs, eps_rel⟩

/-- The control object built for the growth ODE, background.c lines 315-316:
gsl_odeiv_control_y_new(1E-6, 0.0). -/
noncomputable def growth_control : StandardControl :=
  gsl_odeiv_control_y_new 1e-6 0.0

/-- Outcome of a call to functions_nonintegrated: either a returned double
(none modelling a non-finite value) or process abort after printing the
listed diagnostic values. -/
inductive CallResult where
  | ret : Option ℝ → CallResult
  | abortWithDump : List ℝ → CallResult

/-- Tail of functions_nonintegrated (functions.c lines 41-51 and 530-548).
The interpolants comoving distance, z-of-chi and D1 are modelled as real
functions; result is the correlation sum accumulated by the term loop, with
none standing for a non-finite double.  The source computes
chi_mean = interp(comoving, z_mean), chi1 = chi_mean - sep*mu/2,
chi2 = chi_mean + sep*mu/2, z1 = interp(z_as_chi, chi1),
z2 = interp(z_as_chi, chi2); if gsl_finite(result) it returns
result * interp(D1, z1) * interp(D1, z2), otherwise it prints
mu, z_mean, chi_mean, sep, z1, z2, chi1, chi2 and calls
exit(EXIT_FAILURE). -/
noncomputable def functions_nonintegrated_outcome
    (comoving z_as_chi D1 : ℝ → ℝ) (result : Option ℝ)
    (z_mean mu sep : ℝ) : CallResult :=
  let chi_mean := comoving z_mean
  let chi1 := chi_mean - sep * mu / 2
  let chi2 := chi_mean + sep * mu / 2
  let z1 := z_as_chi chi1
  let z2 := z_as_chi chi2
  match result with
  | some r => CallResult.ret (some (r * D1 z1 * D1 z2))
  | none => CallResult.abortWithDump [mu, z_mean, chi_mean, sep, z1, z2, chi1, chi2]

/-- The interpolant-valued fields of struct coffe_background_t. -/
inductive BgField where
  | a | Hz | conformal_Hz | conformal_Hz_prime | D1 | f | g
  | comoving_distance | G1 | G2 | z_as_chi
deriving DecidableEq

/-- The fields for which coffe_background_init builds an interpolant, in
call order (background.c lines 409-481). -/
def background_init_splines : List BgField :=
  [BgField.a, BgField.Hz, BgField.conformal_Hz, BgField.conformal_Hz_prime,
   BgField.D1, BgField.f, BgField.comoving_distance, BgField.G1, BgField.G2,
   BgField.z_as_chi]

/-- The fields released by coffe_background_free, in call order
(background.c lines 513-529). -/
def background_free_splines : List BgField :=
  [BgField.z_as_chi, BgField.a, BgField.Hz, BgField.conformal_Hz,
   BgField.conformal_Hz_prime, BgField.D1, BgField.g, BgField.f,
   BgField.G1, BgField.G2, BgField.comoving_distance]

/-- Per-bin scratch value g, background.c line 363: (1 + z) * D1. -/
noncomputable def temp_g (z D1v : ℝ) : ℝ := (1 + z) * D1v

/-- State manipulated by gsl_odeiv_evolve_apply through pointers: the current
independent variable (the scale factor), the adaptive step size h, and the
state vector y.  The evolve, control and step objects carry no other state
that influences the computed solution across calls. -/
structure EvolveState where
  t : ℝ
  h : ℝ
  y : ℝ × ℝ

/-- Abstract single call of gsl_odeiv_evolve_apply: given the requested end
point and the current state, produce the updated state (new position, new
adaptive step size, new state vector). -/
def GslStep : Type := ℝ → EvolveState → EvolveState

/-- The while loop of background.c lines 354-360:
while (a_initial < target) gsl_odeiv_evolve_apply(...); modelled with
explicit fuel since the C loop has no iteration bound. -/
noncomputable def evolveLoop (step : GslStep) : ℕ → ℝ → EvolveState → EvolveState
  | 0, _, s => s
  | n + 1, target, s =>
      if s.t < target then evolveLoop step n target (step target s) else s

/-- Per-bin scale-factor target, background.c lines 337 and 343:
a = 1/(1 + z) with z = 15*i/(N-1). -/
noncomputable def abinN (N i : ℕ) : ℝ := 1 / (1 + zbinN N i)

/-- One growth solve as the claim describes it: reset a_initial = 0.05 and
y = (0.05, 1.0) (background.c lines 333-335), then run the while loop to
the target scale factor, starting from step size h0. -/
noncomputable def binSolve (step : GslStep) (fuel : ℕ) (target h0 : ℝ) : EvolveState :=
  evolveLoop step fuel target ⟨0.05, h0, (0.05, 1.0)⟩

/-- The values recorded for a bin, background.c lines 362-364:
D1 = y0 and f = y1 * a / D1. -/
noncomputable def binD1f (s : EvolveState) (a : ℝ) : ℝ × ℝ :=
  (s.y.1, s.y.2 * a / s.y.1)

/-- The for loop of background.c lines 332-364 restricted to the growth
solve: iterates over the bins in order, resetting the initial condition
each time but passing the step-size variable h by address, so each bin
starts from the h left behind by the previous bin.  Returns the recorded
(D1, f) pairs and the final h. -/
noncomputable def growthForLoop (step : GslStep) (fuel N : ℕ) :
    ℕ → ℝ → List (ℝ × ℝ) × ℝ
  | 0, h0 => ([], h0)
  | k + 1, h0 =>
      let prev := growthForLoop step fuel N k h0
      let s := binSolve step fuel (abinN N k) prev.2
      (prev.1 ++ [binD1f s (abinN N k)], s.h)

/-- The (D1, f) pairs recorded by the code for all N bins, with
h initialized to 1e-6 once before the loop (background.c line 330). -/
noncomputable def codeGrowthResults (step : GslStep) (fuel N : ℕ) : List (ℝ × ℝ) :=
  (growthForLoop step fuel N N 1e-6).1

/-- The step size with which bin i starts: h0 for the first bin, and for
each later bin whatever the previous bin's solve left behind. -/
noncomputable def hSeqFrom (step : GslStep) (fuel N : ℕ) (h0 : ℝ) : ℕ → ℝ
  | 0 => h0
  | i + 1 => (binSolve step fuel (abinN N i) (hSeqFrom step fuel N h0 i)).h

/-- A concrete stepper used to separate the code loop from independent
per-bin solves: it jumps to the requested end point, advances y0 by the
current step size and doubles the step size. -/
def cstep : GslStep := fun target s => ⟨target, 2 * s.h, (s.y.1 + s.h, s.y.2)⟩

/-- An LCDM-like parameter set used as a concrete instance: matter
fractions 1/4 and 1/20, no radiation, dark-energy fraction 7/10, constant
equation of state -1, two bins. -/
noncomputable def pLCDM : Params :=
  ⟨1 / 4, 1 / 20, 0, 7 / 10, fun _ => -1, fun _ => 0, fun _ => 0, fun _ => 0,
   fun _ => 0, 2⟩

/-- A phantom dark-energy parameter set: all matter and radiation fractions
zero, dark-energy fraction 1, constant equation of state -2, two bins. -/
def pPhantom : Params :=
  ⟨0, 0, 0, 1, fun _ => -2, fun _ => 0, fun _ => 0, fun _ => 0, fun _ => 0, 2⟩

/-- C1: for every scale factor a > 0 and state (y0, y1), the growth-ODE
right-hand side computes, with z = 1/a - 1, w = w(z), x = xint(z):
dy0/da = y1 and
dy1/da = -(3/2)(1 - w/(1+x)) y1/a + (3/2)(x/(1+x)) y0/a^2. -/
theorem growth_rate_ode_matches_spec (w xint : ℝ → ℝ) (a y0 y1 : ℝ) (ha : 0 < a) :
    growth_rate_ode w xint a (y0, y1) =
      (y1,
        -(3 / 2) * (1 - w (1 / a - 1) / (1 + xint (1 / a - 1))) * y1 / a
          + 3 / 2 * (xint (1 / a - 1) / (1 + xint (1 / a - 1))) * y0 / a ^ 2) := by
  simp only [growth_rate_ode, Prod.mk.injEq]
  exact ⟨trivial, by ring⟩

/-- Witness for C1 at a concrete input: w constant -1, xint constant 1,
a = 2, y = (3, 5); there z = -1/2, w = -1, x = 1 and the right-hand side
evaluates to (5, -81/16). -/
theorem growth_rate_ode_matches_spec_witness :
    (0 : ℝ) < 2 ∧
      growth_rate_ode (fun _ => -1) (fun _ => 1) 2 (3, 5) = (5, -(81 / 16)) := by
  refine ⟨by norm_num, ?_⟩
  rw [growth_rate_ode_matches_spec (fun _ => -1) (fun _ => 1) 2 3 5 (by norm_num)]
  norm_num

/-- C2: the matrix handed to the stepper as the Jacobian is not the matrix of
partial derivatives of the right-hand side.  At the concrete input a = 1,
w identically -1, xint identically 1, the code entry (1,1) is
-3/(2a(1 - w/(1+x))) = -1, while the true partial derivative of dy1/da with
respect to y1 is -(3/2)(1 - w/(1+x))/a = -9/4: the source divides by
(1 - w/(1+x)) where the derivative multiplies by it. -/
theorem growth_rate_jac_entry_not_partial_derivative :
    ((growth_rate_jac (fun _ => -1) (fun _ => 1) (fun _ => 0) 1 (0, 0)).1 1 1 = -1)
    ∧ HasDerivAt
        (fun t : ℝ => (growth_rate_ode (fun _ => -1) (fun _ => 1) 1 (0, t)).2)
        (-(9 / 4)) 0
    ∧ ((-1 : ℝ) ≠ -(9 / 4)) := by
  refine ⟨?_, ?_, by norm_num⟩
  · simp [growth_rate_jac]
    norm_num
  · have hfun :
        (fun t : ℝ => (growth_rate_ode (fun _ => -1) (fun _ => 1) 1 (0, t)).2)
          = fun t : ℝ => -(9 / 4) * t := by
      funext t
      simp only [growth_rate_ode]
      norm_num
    rw [hfun]
    simpa using (hasDerivAt_id (0 : ℝ)).const_mul (-(9 / 4) : ℝ)

/-- C5: on the dense tabulation grid, at the grid point z = 0 the tabulated
xint equals Om/(1-Om) by direct formula (for every equation of state, hence
without evaluating any integral), and at every grid point with z > 0 it
equals Om/(1-Om) * exp(-3 * integral of w(1/a-1)/a over a from 1/(1+z)
to 1), with Om = Omega0_cdm + Omega0_baryon. -/
theorem xint_tab_on_grid (w : ℝ → ℝ) (Ocdm Obar : ℝ) (i : ℕ) (hi : i ≤ 16384) :
    (zgrid i = 0 → xint_tab w Ocdm Obar i = (Ocdm + Obar) / (1 - (Ocdm + Obar)))
    ∧ (0 < zgrid i →
        xint_tab w Ocdm Obar i =
          (Ocdm + Obar) / (1 - (Ocdm + Obar))
            * Real.exp (-3 * ∫ a in (1 / (1 + zgrid i))..1, w (1 / a - 1) / a)) := by
  constructor
  · intro hz
    have h0 : i = 0 := by
      by_contra hne
      have hpos : (0 : ℝ) < i := by exact_mod_cast Nat.pos_of_ne_zero hne
      have hgt : (0 : ℝ) < zgrid i := by
        rw [zgrid]
        positivity
      rw [hz] at hgt
      exact lt_irrefl 0 hgt
    simp [xint_tab, h0]
  · intro hz
    have h0 : i ≠ 0 := by
      intro h
      rw [h] at hz
      norm_num [zgrid] at hz
    simp only [xint_tab, h0, if_true, ne_eq, not_false_eq_true]
    rfl

/-- Witness for C5 at a concrete input: the constant equation of state -1,
Omega0_cdm = 1/4, Omega0_baryon = 1/20, grid index i = 1 (where
z = 100/16384 > 0). -/
theorem xint_tab_on_grid_witness :
    xint_tab (fun _ => -1) (1 / 4) (1 / 20) 1 =
      (1 / 4 + 1 / 20) / (1 - (1 / 4 + 1 / 20))
        * Real.exp (-3 * ∫ a in (1 / (1 + zgrid 1))..1, (fun _ => (-1 : ℝ)) (1 / a - 1) / a) := by
  exact (xint_tab_on_grid (fun _ => -1) (1 / 4) (1 / 20) 1 (by norm_num)).2
    (by norm_num [zgrid])

/-- C6: if the equation of state is identically -1, the integrand
(1 + w(z))/(1 + z) is identically zero, and the tabulated dark-energy
evolution factor wint is exactly 1 at every point (exact integral
semantics). -/
theorem wint_lcdm_is_one (w : ℝ → ℝ) (hw : ∀ z, w z = -1) :
    (∀ z, integrand_w w z = 0) ∧ (∀ z, integral_w w z = 1) := by
  have hzero : ∀ z, integrand_w w z = 0 := by
    intro z
    simp [integrand_w, hw]
  refine ⟨hzero, fun z => ?_⟩
  have : (fun t => integrand_w w t) = fun _ => (0 : ℝ) := funext hzero
  simp [integral_w, this]

/-- Witness for C6: the constant function -1, checked at z = 3 and z = 7. -/
theorem wint_lcdm_is_one_witness :
    integrand_w (fun _ => -1) 3 = 0 ∧ integral_w (fun _ => -1) 7 = 1 :=
  ⟨(wint_lcdm_is_one (fun _ => -1) (fun _ => rfl)).1 3,
   (wint_lcdm_is_one (fun _ => -1) (fun _ => rfl)).2 7⟩

/-- C7: for every parameter set (hence for every choice of the
magnification-bias and evolution-bias interpolants) and every bin whose
redshift is at most 1e-10, the recorded values G1 and G2 are exactly 0; the
branch containing the division by chi * curlyH is taken only when
z > 1e-10; and the first bin has redshift exactly 0. -/
theorem relativistic_G_zero_at_origin (p : Params) (i : ℕ)
    (hz : zbin p i ≤ 1e-10) :
    G1_bin p i = 0 ∧ G2_bin p i = 0 ∧ zbin p 0 = 0 := by
  have hnot : ¬(1e-10 < zbin p i) := not_lt.mpr hz
  refine ⟨?_, ?_, ?_⟩
  · rw [G1_bin, if_neg hnot]
  · rw [G2_bin, if_neg hnot]
  · simp [zbin, zbinN]

/-- Witness for C7: a concrete parameter set whose bias interpolants are all
nonzero everywhere, evaluated at the first bin (z = 0). -/
theorem relativistic_G_zero_at_origin_witness :
    G1_bin ⟨1 / 4, 1 / 20, 0, 7 / 10, fun _ => -1,
      fun z => z + 2, fun z => z + 3, fun z => z + 4, fun z => z + 5, 8⟩ 0 = 0
    ∧ G2_bin ⟨1 / 4, 1 / 20, 0, 7 / 10, fun _ => -1,
      fun z => z + 2, fun z => z + 3, fun z => z + 4, fun z => z + 5, 8⟩ 0 = 0 := by
  have h := relativistic_G_zero_at_origin
    ⟨1 / 4, 1 / 20, 0, 7 / 10, fun _ => -1,
      fun z => z + 2, fun z => z + 3, fun z => z + 4, fun z => z + 5, 8⟩ 0
    (by norm_num [zbin, zbinN])
  exact ⟨h.1, h.2.1⟩

/-- C4 counterexample: the stepper control is not configured with relative
tolerance 1e-6 and absolute tolerance 0 — the literal 1e-6 is passed as the
first (absolute) argument of gsl_odeiv_control_y_new and 0.0 as the second
(relative) argument. -/
theorem growth_control_not_relative_tolerance :
    ¬(growth_control.eps_rel = 1e-6 ∧ growth_control.eps_abs = 0) := by
  intro h
  have h1 := h.1
  simp only [growth_control, gsl_odeiv_control_y_new] at h1
  norm_num at h1

/-- C4 amended: the growth-ODE step-size control is configured with absolute
error tolerance 1e-6 and no relative-error component (relative
tolerance 0). -/
theorem growth_control_absolute_tolerance :
    growth_control.eps_abs = 1e-6 ∧ growth_control.eps_rel = 0 := by
  constructor <;> norm_num [growth_control, gsl_odeiv_control_y_new]

/-- C9: functions_nonintegrated either returns the accumulated sum times
D1(z1) * D1(z2) when the accumulated sum is finite, or aborts with the
diagnostic dump (mu, z_mean, chi_mean, sep, z1, z2, chi1, chi2) when it is
non-finite; whenever it returns at all, the accumulated sum was finite and
the returned value is the finite product — it never silently returns a
non-finite accumulated sum. -/
theorem functions_nonintegrated_never_silent_nonfinite
    (comoving z_as_chi D1 : ℝ → ℝ) (result : Option ℝ) (z_mean mu sep : ℝ) :
    (∀ r, result = some r →
      functions_nonintegrated_outcome comoving z_as_chi D1 result z_mean mu sep =
        CallResult.ret (some (r
          * D1 (z_as_chi (comoving z_mean - sep * mu / 2))
          * D1 (z_as_chi (comoving z_mean + sep * mu / 2)))))
    ∧ (result = none →
      functions_nonintegrated_outcome comoving z_as_chi D1 result z_mean mu sep =
        CallResult.abortWithDump
          [mu, z_mean, comoving z_mean, sep,
           z_as_chi (comoving z_mean - sep * mu / 2),
           z_as_chi (comoving z_mean + sep * mu / 2),
           comoving z_mean - sep * mu / 2, comoving z_mean + sep * mu / 2])
    ∧ (∀ v, functions_nonintegrated_outcome comoving z_as_chi D1 result z_mean mu sep =
        CallResult.ret v →
      ∃ r, result = some r ∧
        v = some (r
          * D1 (z_as_chi (comoving z_mean - sep * mu / 2))
          * D1 (z_as_chi (comoving z_mean + sep * mu / 2)))) := by
  refine ⟨?_, ?_, ?_⟩
  · intro r hr
    subst hr
    rfl
  · intro hr
    subst hr
    rfl
  · intro v hv
    cases result with
    | none =>
        exact absurd hv (by simp [functions_nonintegrated_outcome])
    | some r =>
        refine ⟨r, rfl, ?_⟩
        have : CallResult.ret (some (r
            * D1 (z_as_chi (comoving z_mean - sep * mu / 2))
            * D1 (z_as_chi (comoving z_mean + sep * mu / 2)))) = CallResult.ret v := hv ▸ rfl
        cases hv
        rfl

/-- Witness for C9: with every interpolant the identity function, a finite
accumulated sum 2 returns ret (some (2 * D1(z1) * D1(z2))), and a non-finite
accumulated sum aborts with the dump, at z_mean = 1, mu = 0, sep = 0. -/
theorem functions_nonintegrated_never_silent_nonfinite_witness :
    functions_nonintegrated_outcome id id id (some 2) 1 0 0 =
      CallResult.ret (some (2 * id (id ((id 1 : ℝ) - 0 * 0 / 2)) * id (id ((id 1 : ℝ) + 0 * 0 / 2))))
    ∧ functions_nonintegrated_outcome id id id none 1 0 0 =
      CallResult.abortWithDump
        [0, 1, id 1, 0, id ((id 1 : ℝ) - 0 * 0 / 2), id ((id 1 : ℝ) + 0 * 0 / 2),
         (id 1 : ℝ) - 0 * 0 / 2, (id 1 : ℝ) + 0 * 0 / 2] :=
  ⟨(functions_nonintegrated_never_silent_nonfinite id id id (some 2) 1 0 0).1 2 rfl,
   (functions_nonintegrated_never_silent_nonfinite id id id none 1 0 0).2.1 rfl⟩

/-- C10: the scratch array g = (1+z) * D1 is computed per bin, but the
spline-assembly step builds interpolants only for a, Hz, conformal_Hz,
conformal_Hz_prime, D1, f, comoving_distance, G1, G2 and the inverse
z(chi) — not for g — while coffe_background_free releases the g field along
with all the constructed ones. -/
theorem background_g_scratch_unsplined_but_freed :
    (∀ z D1v : ℝ, temp_g z D1v = (1 + z) * D1v)
    ∧ BgField.g ∉ background_init_splines
    ∧ BgField.g ∈ background_free_splines
    ∧ background_init_splines =
        [BgField.a, BgField.Hz, BgField.conformal_Hz, BgField.conformal_Hz_prime,
         BgField.D1, BgField.f, BgField.comoving_distance, BgField.G1, BgField.G2,
         BgField.z_as_chi]
    ∧ ∀ fld, fld ∈ background_init_splines → fld ∈ background_free_splines :=
  ⟨fun _ _ => rfl, by decide, by decide, rfl, by decide⟩

/-- Witness for C10 at concrete inputs: the scratch formula evaluated at
z = 2, D1 = 3, and membership instantiated at the field a. -/
theorem background_g_scratch_unsplined_but_freed_witness :
    temp_g 2 3 = (1 + 2) * 3 ∧ BgField.a ∈ background_free_splines :=
  ⟨background_g_scratch_unsplined_but_freed.1 2 3,
   background_g_scratch_unsplined_but_freed.2.2.2.2 BgField.a (by decide)⟩

/-- Unfolding equation of evolveLoop at fuel 0. -/
theorem evolveLoop_zero (step : GslStep) (target : ℝ) (s : EvolveState) :
    evolveLoop step 0 target s = s := rfl

/-- Unfolding equation of evolveLoop at successor fuel. -/
theorem evolveLoop_succ (step : GslStep) (n : ℕ) (target : ℝ) (s : EvolveState) :
    evolveLoop step (n + 1) target s =
      if s.t < target then evolveLoop step n target (step target s) else s := rfl

/-- Unfolding equation of growthForLoop at iteration count 0. -/
theorem growthForLoop_zero (step : GslStep) (fuel N : ℕ) (h0 : ℝ) :
    growthForLoop step fuel N 0 h0 = ([], h0) := rfl

/-- Unfolding equation of growthForLoop at a successor iteration count. -/
theorem growthForLoop_succ (step : GslStep) (fuel N k : ℕ) (h0 : ℝ) :
    growthForLoop step fuel N (k + 1) h0 =
      ((growthForLoop step fuel N k h0).1 ++
        [binD1f (binSolve step fuel (abinN N k) (growthForLoop step fuel N k h0).2)
          (abinN N k)],
       (binSolve step fuel (abinN N k) (growthForLoop step fuel N k h0).2).h) := rfl

/-- Explicit solution of one bin under cstep. -/
theorem cstep_binSolve (target h0 : ℝ) (ht : (0.05 : ℝ) < target) :
    binSolve cstep 1 target h0 = ⟨target, 2 * h0, (0.05 + h0, 1)⟩ := by
  rw [binSolve, show (1 : ℕ) = 0 + 1 from rfl, evolveLoop_succ]
  dsimp only
  rw [if_pos ht, evolveLoop_zero]
  simp only [cstep, EvolveState.mk.injEq, Prod.mk.injEq]
  norm_num

/-- C3 counterexample: with the stepper cstep, two bins and fuel 1, the
value recorded for bin 1 by the code loop is 0.05 + 2e-6 (its solve starts
from the step size 2e-6 left behind by bin 0), while the standalone
integration of bin 1 from initial step size 1e-6 yields 0.05 + 1e-6: the
per-bin result depends on the other bins having been solved first. -/
theorem growth_bins_depend_on_carried_step_size :
    ((codeGrowthResults cstep 1 2).getD 1 (0, 0)).1 = 0.05 + 2e-6
    ∧ ((binSolve cstep 1 (abinN 2 1) 1e-6).y).1 = 0.05 + 1e-6
    ∧ ((0.05 + 2e-6 : ℝ) ≠ 0.05 + 1e-6) := by
  have habin0 : abinN 2 0 = 1 := by norm_num [abinN, zbinN]
  have habin1 : abinN 2 1 = 1 / 16 := by norm_num [abinN, zbinN]
  have h05 : (0.05 : ℝ) < 1 / 16 := by norm_num
  have hloop1 : growthForLoop cstep 1 2 (0 + 1) 1e-6 =
      ([binD1f ⟨1, 2 * 1e-6, (0.05 + 1e-6, 1)⟩ 1], 2 * 1e-6) := by
    rw [growthForLoop_succ, growthForLoop_zero]
    dsimp only
    rw [habin0, cstep_binSolve 1 1e-6 (by norm_num)]
    simp
  have hloop2 : growthForLoop cstep 1 2 (0 + 1 + 1) 1e-6 =
      ([binD1f ⟨1, 2 * 1e-6, (0.05 + 1e-6, 1)⟩ 1,
        binD1f ⟨1 / 16, 2 * (2 * 1e-6), (0.05 + 2 * 1e-6, 1)⟩ (1 / 16)],
       2 * (2 * 1e-6)) := by
    rw [growthForLoop_succ, hloop1]
    dsimp only
    rw [habin1, cstep_binSolve (1 / 16) (2 * 1e-6) h05]
    simp
  refine ⟨?_, ?_, by norm_num⟩
  · rw [codeGrowthResults, show (2 : ℕ) = 0 + 1 + 1 from rfl, hloop2]
    simp [binD1f]
    norm_num
  · rw [habin1, cstep_binSolve (1 / 16) 1e-6 h05]

/-- C3 amended: each bin's recorded (D1, f) equals a standalone integration
that resets the fixed initial condition D1 = 0.05, D1 derivative = 1.0 at
a_initial = 0.05 and integrates to the bin's target scale factor — but
starting from the carried-over step size hSeqFrom, which is 1e-6 only for
bin 0 and for bin i+1 is whatever bin i's solve left behind. -/
theorem growth_bins_restart_ic_with_carried_step
    (step : GslStep) (fuel N i : ℕ) (hi : i < N) :
    (codeGrowthResults step fuel N).getD i (0, 0) =
      binD1f (binSolve step fuel (abinN N i) (hSeqFrom step fuel N 1e-6 i)) (abinN N i)
    ∧ hSeqFrom step fuel N 1e-6 0 = 1e-6 := by
  have main : ∀ k : ℕ,
      (growthForLoop step fuel N k 1e-6).1.length = k
      ∧ (growthForLoop step fuel N k 1e-6).2 = hSeqFrom step fuel N 1e-6 k
      ∧ ∀ j, j < k →
          (growthForLoop step fuel N k 1e-6).1.getD j (0, 0) =
            binD1f (binSolve step fuel (abinN N j) (hSeqFrom step fuel N 1e-6 j))
              (abinN N j) := by
    intro k
    induction k with
    | zero =>
        refine ⟨rfl, rfl, ?_⟩
        intro j hj
        exact absurd hj (Nat.not_lt_zero j)
    | succ k ih =>
        obtain ⟨ihlen, ihh, ihget⟩ := ih
        rw [growthForLoop_succ]
        refine ⟨?_, ?_, ?_⟩
        · simp [ihlen]
        · dsimp only
          rw [ihh]
          rfl
        · intro j hj
          dsimp only
          rcases Nat.lt_succ_iff_lt_or_eq.mp hj with hlt | heq
          · rw [List.getD_append _ _ _ _ (by rw [ihlen]; exact hlt)]
            exact ihget j hlt
          · subst heq
            rw [List.getD_append_right _ _ _ _ (by rw [ihlen])]
            rw [ihlen, ihh]
            simp
  exact ⟨(main N).2.2 i hi, rfl⟩

/-- Witness for C3 amended: with the stepper cstep, two bins and fuel 1,
bin 0's recorded pair equals the standalone solve from step size 1e-6. -/
theorem growth_bins_restart_ic_with_carried_step_witness :
    (codeGrowthResults cstep 1 2).getD 0 (0, 0) =
      binD1f (binSolve cstep 1 (abinN 2 0) (hSeqFrom cstep 1 2 1e-6 0)) (abinN 2 0)
    ∧ hSeqFrom cstep 1 2 1e-6 0 = 1e-6 :=
  growth_bins_restart_ic_with_carried_step cstep 1 2 0 (by norm_num)

/-- The integrand (1 + w(z))/(1 + z) is continuous to the right of z = -1
when the equation of state is continuous. -/
theorem integrand_w_contOn (w : ℝ → ℝ) (hw : Continuous w) :
    ContinuousOn (integrand_w w) (Set.Ioi (-1 : ℝ)) := by
  apply ContinuousOn.div
  · exact (continuous_const.add hw).continuousOn
  · exact (continuous_const.add continuous_id).continuousOn
  · intro t ht
    have h1 : (-1 : ℝ) < t := ht
    have : (0 : ℝ) < 1 + t := by linarith
    exact ne_of_gt this

/-- Interval integrability of the wint integrand between nonnegative
endpoints. -/
theorem integrand_w_intervalIntegrable (w : ℝ → ℝ) (hw : Continuous w)
    {a b : ℝ} (ha : 0 ≤ a) (hb : 0 ≤ b) :
    IntervalIntegrable (integrand_w w) MeasureTheory.volume a b := by
  apply ContinuousOn.intervalIntegrable
  apply (integrand_w_contOn w hw).mono
  intro x hx
  rcases Set.mem_uIcc.mp hx with h | h
  · exact Set.mem_Ioi.mpr (by linarith [h.1])
  · exact Set.mem_Ioi.mpr (by linarith [h.1])

/-- For a continuous equation of state with w at least -1 everywhere, the
tabulated dark-energy evolution factor is monotone on nonnegative
redshifts. -/
theorem wint_mono (p : Params) (hw : Continuous p.w) (hw1 : ∀ z, -1 ≤ p.w z)
    {z1 z2 : ℝ} (h0 : 0 ≤ z1) (h12 : z1 ≤ z2) : wint p z1 ≤ wint p z2 := by
  have h02 : (0 : ℝ) ≤ z2 := le_trans h0 h12
  have hint1 := integrand_w_intervalIntegrable p.w hw le_rfl h0
  have hint2 := integrand_w_intervalIntegrable p.w hw h0 h02
  have hadd := intervalIntegral.integral_add_adjacent_intervals hint1 hint2
  have hnn : 0 ≤ ∫ t in z1..z2, integrand_w p.w t := by
    apply intervalIntegral.integral_nonneg h12
    intro u hu
    have hnum : 0 ≤ 1 + p.w u := by linarith [hw1 u]
    have hden : (0 : ℝ) < 1 + u := by linarith [hu.1]
    exact div_nonneg hnum hden.le
  rw [wint, wint, integral_w, integral_w]
  apply Real.exp_le_exp.mpr
  linarith

/-- The Hubble-rate radicand is bounded below by the matter fraction on
nonnegative redshifts when all density fractions are nonnegative. -/
theorem Esq_lower (p : Params)
    (hcdm : 0 ≤ p.Omega0_cdm) (hbar : 0 ≤ p.Omega0_baryon)
    (hgam : 0 ≤ p.Omega0_gamma) (hde : 0 ≤ p.Omega0_de)
    {z : ℝ} (hz : 0 ≤ z) :
    p.Omega0_cdm + p.Omega0_baryon ≤ Esq p z := by
  have h1 : (1 : ℝ) ≤ (1 + z) ^ 3 := by
    nlinarith [mul_nonneg hz hz, mul_nonneg (mul_nonneg hz hz) hz]
  have h2 : (0 : ℝ) ≤ p.Omega0_gamma * (1 + z) ^ 4 := by positivity
  have h3 : (0 : ℝ) ≤ p.Omega0_de * wint p z := by
    have : (0 : ℝ) < wint p z := by
      rw [wint, integral_w]
      exact Real.exp_pos _
    exact mul_nonneg hde this.le
  have h4 := mul_le_mul_of_nonneg_left h1 (add_nonneg hcdm hbar)
  rw [mul_one] at h4
  rw [Esq]
  linarith

/-- Strict positivity of the radicand when the matter fraction is
positive. -/
theorem Esq_pos (p : Params)
    (hcdm : 0 ≤ p.Omega0_cdm) (hbar : 0 ≤ p.Omega0_baryon)
    (hgam : 0 ≤ p.Omega0_gamma) (hde : 0 ≤ p.Omega0_de)
    (hm : 0 < p.Omega0_cdm + p.Omega0_baryon)
    {z : ℝ} (hz : 0 ≤ z) : 0 < Esq p z :=
  lt_of_lt_of_le hm (Esq_lower p hcdm hbar hgam hde hz)

/-- Monotonicity of the radicand for a continuous, non-phantom equation of
state and nonnegative density fractions. -/
theorem Esq_mono (p : Params)
    (hcdm : 0 ≤ p.Omega0_cdm) (hbar : 0 ≤ p.Omega0_baryon)
    (hgam : 0 ≤ p.Omega0_gamma) (hde : 0 ≤ p.Omega0_de)
    (hw : Continuous p.w) (hw1 : ∀ z, -1 ≤ p.w z)
    {z1 z2 : ℝ} (h0 : 0 ≤ z1) (h12 : z1 ≤ z2) : Esq p z1 ≤ Esq p z2 := by
  have t1 : (1 + z1) ^ 3 ≤ (1 + z2) ^ 3 := pow_le_pow_left₀ (by linarith) (by linarith) 3
  have t2 : (1 + z1) ^ 4 ≤ (1 + z2) ^ 4 := pow_le_pow_left₀ (by linarith) (by linarith) 4
  have t3 := wint_mono p hw hw1 h0 h12
  have u1 := mul_le_mul_of_nonneg_left t1 (add_nonneg hcdm hbar)
  have u2 := mul_le_mul_of_nonneg_left t2 hgam
  have u3 := mul_le_mul_of_nonneg_left t3 hde
  rw [Esq, Esq]
  linarith

/-- Continuity of the tabulated wint on a nonnegative interval. -/
theorem wint_contOn (p : Params) (hw : Continuous p.w) {B : ℝ} (hB : 0 ≤ B) :
    ContinuousOn (wint p) (Set.Icc 0 B) := by
  have hint : MeasureTheory.IntegrableOn (integrand_w p.w)
      (Set.uIcc (0 : ℝ) B) MeasureTheory.volume := by
    rw [Set.uIcc_of_le hB]
    apply ContinuousOn.integrableOn_Icc
    exact (integrand_w_contOn p.w hw).mono
      (fun x hx => Set.mem_Ioi.mpr (by linarith [hx.1]))
  have hP : ContinuousOn (fun z => ∫ t in (0 : ℝ)..z, integrand_w p.w t)
      (Set.Icc 0 B) := by
    have := intervalIntegral.continuousOn_primitive_interval hint
    rwa [Set.uIcc_of_le hB] at this
  exact Real.continuous_exp.comp_continuousOn (continuousOn_const.mul hP)

/-- Continuity of the radicand on a nonnegative interval. -/
theorem Esq_contOn (p : Params) (hw : Continuous p.w) {B : ℝ} (hB : 0 ≤ B) :
    ContinuousOn (Esq p) (Set.Icc 0 B) := by
  apply ContinuousOn.add
  apply ContinuousOn.add
  · exact (continuous_const.mul ((continuous_const.add continuous_id).pow 3)).continuousOn
  · exact (continuous_const.mul ((continuous_const.add continuous_id).pow 4)).continuousOn
  · exact continuousOn_const.mul (wint_contOn p hw hB)

/-- Continuity of the comoving-distance integrand on a nonnegative interval,
for positive matter fraction. -/
theorem integrand_comoving_contOn (p : Params)
    (hcdm : 0 ≤ p.Omega0_cdm) (hbar : 0 ≤ p.Omega0_baryon)
    (hgam : 0 ≤ p.Omega0_gamma) (hde : 0 ≤ p.Omega0_de)
    (hm : 0 < p.Omega0_cdm + p.Omega0_baryon)
    (hw : Continuous p.w) {B : ℝ} (hB : 0 ≤ B) :
    ContinuousOn (integrand_comoving p) (Set.Icc 0 B) := by
  apply ContinuousOn.div continuousOn_const
  · exact Real.continuous_sqrt.comp_continuousOn (Esq_contOn p hw hB)
  · intro x hx
    exact ne_of_gt (Real.sqrt_pos.mpr (Esq_pos p hcdm hbar hgam hde hm hx.1))

/-- C8 amended: for at least two bins, nonnegative density fractions,
positive matter fraction and a continuous non-phantom equation of state
(w at least -1 everywhere), the bin redshifts are linearly spaced with
z_0 = 0 and z_last = 15 and strictly increasing, the scale-factor array is
strictly decreasing, the comoving-distance array is strictly increasing,
and the Hubble array is non-decreasing.  (The claim as stated, without the
non-phantom condition, is refuted by hubble_array_not_monotone.) -/
theorem background_arrays_monotone (p : Params) (i j : ℕ)
    (hN : 2 ≤ p.background_bins) (hij : i < j) (hj : j < p.background_bins)
    (hcdm : 0 ≤ p.Omega0_cdm) (hbar : 0 ≤ p.Omega0_baryon)
    (hgam : 0 ≤ p.Omega0_gamma) (hde : 0 ≤ p.Omega0_de)
    (hm : 0 < p.Omega0_cdm + p.Omega0_baryon)
    (hw : Continuous p.w) (hw1 : ∀ z, -1 ≤ p.w z) :
    zbin p 0 = 0 ∧ zbin p (p.background_bins - 1) = 15
    ∧ zbin p i < zbin p j
    ∧ a_bin p j < a_bin p i
    ∧ comoving_bin p i < comoving_bin p j
    ∧ Hz_bin p i ≤ Hz_bin p j := by
  have hNpos : (0 : ℝ) < ((p.background_bins - 1 : ℕ) : ℝ) := by
    have h1 : (0 : ℕ) < p.background_bins - 1 := by omega
    exact_mod_cast h1
  have hznn : ∀ k : ℕ, 0 ≤ zbin p k := by
    intro k
    rw [zbin, zbinN]
    positivity
  have hzmono : zbin p i < zbin p j := by
    rw [zbin, zbinN, zbin, zbinN]
    rw [div_lt_div_iff₀ hNpos hNpos]
    have hij' : (i : ℝ) < j := by exact_mod_cast hij
    nlinarith
  have hz0 : zbin p 0 = 0 := by simp [zbin, zbinN]
  have hzlast : zbin p (p.background_bins - 1) = 15 := by
    rw [zbin, zbinN, mul_div_assoc, div_self (ne_of_gt hNpos), mul_one]
  refine ⟨hz0, hzlast, hzmono, ?_, ?_, ?_⟩
  · rw [a_bin, a_bin]
    apply one_div_lt_one_div_of_lt
    · linarith [hznn i]
    · linarith
  · have hBnn : 0 ≤ zbin p j := hznn j
    have hcont := integrand_comoving_contOn p hcdm hbar hgam hde hm hw hBnn
    have hint1 : IntervalIntegrable (integrand_comoving p)
        MeasureTheory.volume 0 (zbin p i) := by
      apply ContinuousOn.intervalIntegrable
      apply hcont.mono
      rw [Set.uIcc_of_le (hznn i)]
      exact Set.Icc_subset_Icc le_rfl hzmono.le
    have hint2 : IntervalIntegrable (integrand_comoving p)
        MeasureTheory.volume (zbin p i) (zbin p j) := by
      apply ContinuousOn.intervalIntegrable
      apply hcont.mono
      rw [Set.uIcc_of_le hzmono.le]
      exact Set.Icc_subset_Icc (hznn i) le_rfl
    have hadd := intervalIntegral.integral_add_adjacent_intervals hint1 hint2
    have hpos : 0 < ∫ t in (zbin p i)..(zbin p j), integrand_comoving p t := by
      apply intervalIntegral.intervalIntegral_pos_of_pos_on hint2 _ hzmono
      intro x hx
      have hx0 : 0 ≤ x := le_trans (hznn i) hx.1.le
      have hE := Esq_pos p hcdm hbar hgam hde hm hx0
      rw [integrand_comoving]
      exact one_div_pos.mpr (Real.sqrt_pos.mpr hE)
    rw [comoving_bin, comoving_bin]
    linarith
  · rw [Hz_bin, Hz_bin]
    exact Real.sqrt_le_sqrt
      (Esq_mono p hcdm hbar hgam hde hw hw1 (hznn i) hzmono.le)

/-- Witness for C8 amended: the concrete LCDM-like parameter set pLCDM with
Omega0_cdm = 1/4, Omega0_baryon = 1/20, Omega0_gamma = 0, Omega0_de = 7/10,
constant equation of state -1, 2 bins, at bins i = 0, j = 1. -/
theorem background_arrays_monotone_witness :
    zbin pLCDM 0 = 0 ∧ zbin pLCDM (pLCDM.background_bins - 1) = 15
    ∧ zbin pLCDM 0 < zbin pLCDM 1
    ∧ a_bin pLCDM 1 < a_bin pLCDM 0
    ∧ comoving_bin pLCDM 0 < comoving_bin pLCDM 1
    ∧ Hz_bin pLCDM 0 ≤ Hz_bin pLCDM 1 :=
  background_arrays_monotone pLCDM 0 1 (by norm_num [pLCDM]) (by norm_num)
    (by norm_num [pLCDM]) (by norm_num [pLCDM]) (by norm_num [pLCDM])
    (by norm_num [pLCDM]) (by norm_num [pLCDM]) (by norm_num [pLCDM])
    (by simp [pLCDM]; exact continuous_const) (by norm_num [pLCDM])

/-- C8 counterexample: for the phantom parameter set (which has 2 bins and
nonnegative density fractions), the tabulated Hubble array is strictly
decreasing between the first two bins: H at z = 15 is sqrt(wint(15)) < 1
while H at z = 0 is 1, refuting the claimed non-decreasing Hubble array. -/
theorem hubble_array_not_monotone :
    2 ≤ pPhantom.background_bins
    ∧ (0 ≤ pPhantom.Omega0_cdm ∧ 0 ≤ pPhantom.Omega0_baryon
        ∧ 0 ≤ pPhantom.Omega0_gamma ∧ 0 ≤ pPhantom.Omega0_de)
    ∧ zbin pPhantom 0 < zbin pPhantom 1
    ∧ Hz_bin pPhantom 1 < Hz_bin pPhantom 0 := by
  have hz0 : zbin pPhantom 0 = 0 := by simp [zbin, zbinN]
  have hz1 : zbin pPhantom 1 = 15 := by
    rw [zbin, zbinN]
    norm_num [pPhantom]
  have hI : (∫ t in (0 : ℝ)..15, integrand_w pPhantom.w t) = -Real.log 16 := by
    have h1 : Set.EqOn (integrand_w pPhantom.w) (fun t => -(t + 1)⁻¹)
        (Set.uIcc (0 : ℝ) 15) := by
      intro t _
      show (1 + pPhantom.w t) / (1 + t) = -(t + 1)⁻¹
      show ((1 : ℝ) + (-2)) / (1 + t) = -(t + 1)⁻¹
      ring
    rw [intervalIntegral.integral_congr h1, intervalIntegral.integral_neg]
    have h2 : (∫ t in (0 : ℝ)..15, (t + 1)⁻¹) = Real.log 16 := by
      have h3 := intervalIntegral.integral_comp_add_right
        (f := fun x : ℝ => x⁻¹) (a := (0 : ℝ)) (b := 15) 1
      simp only [] at h3
      rw [h3, show (0 : ℝ) + 1 = 1 by norm_num, show (15 : ℝ) + 1 = 16 by norm_num]
      rw [integral_inv (by norm_num [Set.mem_uIcc])]
      norm_num
    rw [h2]
  have hH0 : Hz_bin pPhantom 0 = 1 := by
    rw [Hz_bin, hz0, Esq, wint, integral_w]
    simp [pPhantom, intervalIntegral.integral_same]
  have hH1 : Hz_bin pPhantom 1 < 1 := by
    rw [Hz_bin, hz1, Esq, wint, integral_w, hI]
    have hlt : Real.exp (3 * -Real.log 16) < 1 :=
      Real.exp_lt_one_iff.mpr (by nlinarith [Real.log_pos (by norm_num : (1:ℝ) < 16)])
    have hle : (0 : ℝ) ≤ Real.exp (3 * -Real.log 16) := (Real.exp_pos _).le
    calc Real.sqrt ((pPhantom.Omega0_cdm + pPhantom.Omega0_baryon) * (1 + 15) ^ 3
          + pPhantom.Omega0_gamma * (1 + 15) ^ 4
          + pPhantom.Omega0_de * Real.exp (3 * -Real.log 16))
        = Real.sqrt (Real.exp (3 * -Real.log 16)) := by
          norm_num [pPhantom]
      _ < Real.sqrt 1 := Real.sqrt_lt_sqrt hle hlt
      _ = 1 := Real.sqrt_one
  refine ⟨by norm_num [pPhantom], ⟨by norm_num [pPhantom], by norm_num [pPhantom],
    by norm_num [pPhantom], by norm_num [pPhantom]⟩, ?_, ?_⟩
  · rw [hz0, hz1]
    norm_num
  · rw [hH0]
    exact hH1

end Coffe
